import Mathlib

/-!
Verification of the sugarcane-dashboard receipt-ingestion pipeline.

Shallow embedding of:
  * `src/shared/lib/ai/client.ts` — `cleanJSON`, `VISION_MODELS`, `analyzeReceipt`;
  * `src/features/upload/actions/upload.ts` — `uploadReceipt`;
  * `src/features/upload/components/upload-dropzone.tsx` — `uploadFileSchema`.

JavaScript numbers are modelled as rationals (the pipeline only divides by
constants and rounds; on the finite domains involved the float and rational
results coincide).  External collaborators (Supabase auth/storage/database,
the OpenRouter HTTP API, `JSON.parse`) are modelled as oracles supplied in an
environment record; the orchestrator and extractor additionally emit a trace
of the collaborator calls they make, so that frame claims can be stated.
-/

namespace Sugarcane

/-! ## OCR data model (`OCRExtractedData` in `client.ts`) -/

/-- Fields the vision model is asked to extract.  Each TS field is optional
and nullable; `none` models both `null` and `undefined`. -/
structure OCRExtractedData where
  supplier_name : Option String
  date : Option String
  total_amount : Option ℚ
  cane_type : Option String
  weight_net : Option ℚ
  price_per_ton : Option ℚ
deriving DecidableEq

/-! ## Sanitizer (`cleanJSON` in `client.ts`)

The source first removes every occurrence of the regex patterns
`/```json\s*/gi` and `/```\s*/g`, trims the result, then slices between the
first `\x7b` and the last `\x7d`.  The two regex passes are embedded as
fuel-indexed scans (`fuel = length of the list` always suffices, since every
step consumes at least one character); a global JS regex replace scans left
to right and resumes after the end of each match, which is exactly what the
recursion below does, with `dropWhile` playing the greedy `\s*`. -/

/-- Characters matched by `\s` in a JavaScript regex (and by `String.trim`). -/
def jsWhitespace (c : Char) : Bool :=
  [' ', '\t', '\n', '\r', '\x0b', '\x0c', '\u00a0', '\u1680',
   '\u2000', '\u2001', '\u2002', '\u2003', '\u2004', '\u2005', '\u2006',
   '\u2007', '\u2008', '\u2009', '\u200a', '\u2028', '\u2029', '\u202f',
   '\u205f', '\u3000', '\ufeff'].contains c

/-- One global pass of `.replace(/```json\s*/gi, "")` (the `i` flag makes the
four letters case-insensitive; the backticks are literal). -/
def stripJsonLoop : Nat → List Char → List Char
  | 0, l => l
  | fuel + 1, '`' :: '`' :: '`' :: j :: s :: o :: n :: rest =>
      if j.toLower = 'j' ∧ s.toLower = 's' ∧ o.toLower = 'o' ∧ n.toLower = 'n' then
        stripJsonLoop fuel (rest.dropWhile jsWhitespace)
      else
        '`' :: stripJsonLoop fuel ('`' :: '`' :: j :: s :: o :: n :: rest)
  | fuel + 1, c :: cs => c :: stripJsonLoop fuel cs
  | _ + 1, [] => []

/-- One global pass of `.replace(/```\s*/g, "")`. -/
def stripTicksLoop : Nat → List Char → List Char
  | 0, l => l
  | fuel + 1, '`' :: '`' :: '`' :: rest => stripTicksLoop fuel (rest.dropWhile jsWhitespace)
  | fuel + 1, c :: cs => c :: stripTicksLoop fuel cs
  | _ + 1, [] => []

/-- JavaScript `String.prototype.trim`. -/
def trimJS (l : List Char) : List Char :=
  ((l.dropWhile jsWhitespace).reverse.dropWhile jsWhitespace).reverse

/-- JavaScript `String.prototype.indexOf` for a single character
(`none` models `-1`). -/
def idxOf? (c : Char) : List Char → Option Nat
  | [] => none
  | x :: xs => if x = c then some 0 else (idxOf? c xs).map (· + 1)

/-- JavaScript `String.prototype.lastIndexOf` for a single character. -/
def lastIdxOf? (c : Char) (l : List Char) : Option Nat :=
  (idxOf? c l.reverse).map (fun k => l.length - 1 - k)

/-- Text remaining after the two marker-stripping passes and the trim
(the `cleaned` local of `cleanJSON`). -/
def cleanedOf (rawText : String) : List Char :=
  trimJS (stripTicksLoop (stripJsonLoop rawText.toList.length rawText.toList).length
    (stripJsonLoop rawText.toList.length rawText.toList))

/-- Embeds `cleanJSON` from `client.ts`: `null` on a falsy (empty) input,
strip markers, then slice from the first `\x7b` to the last `\x7d`
inclusive, `null` when a brace is missing or the braces are inverted. -/
def cleanJSON (rawText : String) : Option String :=
  if rawText = "" then none
  else
    match idxOf? '\x7b' (cleanedOf rawText), lastIdxOf? '\x7d' (cleanedOf rawText) with
    | some firstBrace, some lastBrace =>
        if lastBrace < firstBrace then none
        else some (String.mk (((cleanedOf rawText).drop firstBrace).take (lastBrace + 1 - firstBrace)))
    | _, _ => none

example : cleanJSON "Here you go:\n```json\n\x7b\"a\":1\x7d\n```" = some "\x7b\"a\":1\x7d" := by decide

example : cleanJSON "no braces at all" = none := by decide

example : cleanJSON "end\x7d start\x7b" = none := by decide

/-! ## Field extractor (`analyzeReceipt` in `client.ts`) -/

/-- Model list from `client.ts`, tried in order of preference. -/
def VISION_MODELS : List String :=
  ["google/gemini-2.0-flash-exp:free",
   "qwen/qwen-2.5-vl-7b-instruct:free",
   "nvidia/nemotron-nano-12b-v2-vl:free"]

/-- Outcome of one `client.chat.completions.create` call: the call throws
(network error, timeout, non-2xx), or it returns and
`response.choices[0]?.message?.content` is the given optional string. -/
inductive ModelResp where
  | threw (msg : String)
  | replied (content : Option String)
deriving DecidableEq

/-- Oracle environment for `analyzeReceipt`: whether the OpenRouter key is
configured (`getAIClient` non-null), each model's response, and the result of
`JSON.parse` on a sanitized string (`JSON.parse` is JS-runtime code, not part
of this repository, so it is abstracted: `Except.error` models a throw whose
`message` is the carried string). -/
structure AIEnv where
  configured : Bool
  resp : String → ModelResp
  parse : String → Except String OCRExtractedData

/-- JavaScript `errorMsg.substring(0, 50)`. -/
def jsSubstring50 (s : String) : String :=
  String.mk (s.toList.take 50)

/-- One iteration of the model loop: the per-model pipeline producing either
parsed data or the diagnostic string pushed onto `errors`. -/
def tryModel (env : AIEnv) (model : String) : Except String OCRExtractedData :=
  match env.resp model with
  | .threw msg => .error (model ++ ": " ++ jsSubstring50 msg)
  | .replied none => .error (model ++ ": Empty response")
  | .replied (some content) =>
      if content = "" then .error (model ++ ": Empty response")
      else
        match cleanJSON content with
        | none => .error (model ++ ": Invalid JSON structure")
        | some jsonString =>
            match env.parse jsonString with
            | .error perr => .error (model ++ ": " ++ jsSubstring50 perr)
            | .ok parsed => .ok parsed

/-- JavaScript `Array.prototype.join`. -/
def jsJoin (sep : String) : List String → String
  | [] => ""
  | [x] => x
  | x :: xs => x ++ sep ++ jsJoin sep xs

/-- The `for (const model of VISION_MODELS)` loop of `analyzeReceipt`;
`errors` accumulates diagnostics and `tried` records, in order, the models a
`client.chat.completions.create` call was issued for. -/
def runModels (env : AIEnv) :
    List String → List String → List String →
      (Option OCRExtractedData × Option String) × List String
  | [], errors, tried =>
      ((none, some ("All AI models failed for OCR extraction. Details: "
          ++ jsJoin " | " errors)), tried)
  | model :: rest, errors, tried =>
      match tryModel env model with
      | .ok parsed => ((some parsed, none), tried ++ [model])
      | .error e => runModels env rest (errors ++ [e]) (tried ++ [model])

/-- Embeds `analyzeReceipt` from `client.ts`.  The first component is the
returned `{ data, error }` pair; the second is the trace of models actually
invoked.  The TS function is `async` but every failure path is converted to
the error channel (the whole loop body sits in `try`/`catch`), which the
totality of this function reflects. -/
def analyzeReceipt (env : AIEnv) :
    (Option OCRExtractedData × Option String) × List String :=
  if env.configured then runModels env VISION_MODELS [] []
  else ((none, some "AI client not configured (missing OPENROUTER_API_KEY)"), [])

/-! ## Ingestion orchestrator (`uploadReceipt` in `upload.ts`) -/

/-- Lifecycle status column of the `receipts` table. -/
inductive ReceiptStatus where
  | pending
  | processing
  | completed
  | failed
deriving DecidableEq

/-- The `file` field of the incoming `FormData`. -/
structure FileInfo where
  name : String
  size : Nat
  type : String
deriving DecidableEq

/-- Size ceiling of `uploadFileSchema` (5 MiB). -/
def MAX_FILE_SIZE : Nat := 5 * 1024 * 1024

/-- MIME allow-list of `uploadFileSchema`. -/
def ALLOWED_IMAGE_TYPES : List String :=
  ["image/jpeg", "image/jpg", "image/png", "image/webp"]

/-- Embeds `uploadFileSchema.safeParse`: `some message` is the first zod
issue (size is checked by the first `.refine`, MIME by the second), `none`
means the file passed validation. -/
def validateFile (f : FileInfo) : Option String :=
  if MAX_FILE_SIZE < f.size then some "File size must be less than 5MB"
  else if ALLOWED_IMAGE_TYPES.contains f.type then none
  else some "Only JPEG, PNG, and WebP images are allowed"

/-- Oracle environment for one `uploadReceipt` run: the authenticated user,
the form file, the `analyzeReceipt` result (a `{ data, error }` pair),
`Date.now()` / `Math.random()` material for the storage path, and the
outcomes of the storage and database calls.  `removeError` is the outcome of
the compensating `storage.remove` — the source discards it, so it can never
influence the returned value. -/
structure UploadEnv where
  user : Option String
  file : Option FileInfo
  ocrData : Option OCRExtractedData
  ocrError : Option String
  now : Nat
  rand : String
  uploadError : Option String
  removeError : Option String
  publicUrl : String
  dbError : Option String
  dbReceiptId : String
  isoNow : String
  duration : Nat

/-- Row inserted into the `receipts` table (the object literal of step [6]). -/
structure ReceiptRecord where
  user_id : String
  status : ReceiptStatus
  image_url : String
  image_filename : String
  supplier_name : Option String
  transaction_date : Option String
  total_amount : Option ℚ
  weight_kg : Option ℚ
  price_per_kg : Option ℚ
  raw_ocr_data : Option OCRExtractedData
  ocr_confidence_score : Option ℤ
  processed_at : Option String
  processing_duration_ms : Nat
  error_message : Option String
deriving DecidableEq

/-- Calls `uploadReceipt` makes on its collaborators, in order. -/
inductive Event where
  | aiCall (mime : String)
  | storageUpload (path : String)
  | storageRemove (paths : List String)
  | dbInsert (record : ReceiptRecord)
  | revalidate (path : String)
deriving DecidableEq

/-- Return type of the server action (`ActionResult` in `upload.ts`). -/
inductive ActionResult where
  | ok (receiptId : String) (ocrData : Option OCRExtractedData)
  | err (msg : String)
deriving DecidableEq

/-- JavaScript `Math.round`: round half toward positive infinity. -/
def jsRound (q : ℚ) : ℤ := ⌊q + 1 / 2⌋

/-- Count of the six expected field names whose value in `d` is neither
`null` nor `undefined` (the `filledFields.length` of step [4]). -/
def filledFields (d : OCRExtractedData) : Nat :=
  [d.supplier_name.isSome, d.date.isSome, d.total_amount.isSome,
   d.cane_type.isSome, d.weight_net.isSome, d.price_per_ton.isSome].count true

/-- Confidence score of step [4]:
`Math.round((filledFields.length / fields.length) * 100)`. -/
def ocrConfidenceOf (d : OCRExtractedData) : ℤ :=
  jsRound (((filledFields d : ℚ) / 6) * 100)

/-- JavaScript truthiness of a nullable string (`null`, `undefined` and `""`
are falsy). -/
def jsTruthyStr : Option String → Bool
  | none => false
  | some s => s ≠ ""

/-- The `(ocrData, ocrError, ocrConfidence)` locals after step [4]:
`if (ocrResult.error) … else if (ocrResult.data) …`. -/
def ocrTriple (env : UploadEnv) :
    Option OCRExtractedData × Option String × Option ℤ :=
  if jsTruthyStr env.ocrError then (none, env.ocrError, none)
  else
    match env.ocrData with
    | some d => (some d, none, some (ocrConfidenceOf d))
    | none => (none, none, none)

/-- Truthiness-aware test `ocrConfidence && ocrConfidence >= 50`
(`0` is falsy, so a zero confidence never reaches the comparison). -/
def confTruthyGE50 : Option ℤ → Bool
  | none => false
  | some c => decide (c ≠ 0) && decide (50 ≤ c)

/-- Status computation of step [6]. -/
def statusOf (ocrData : Option OCRExtractedData) (conf : Option ℤ) : ReceiptStatus :=
  if ocrData.isSome && confTruthyGE50 conf then .completed
  else if ocrData.isSome then .processing
  else .pending

/-- JavaScript `String.prototype.split` with a one-character separator. -/
def splitOnChar (sep : Char) : List Char → List (List Char)
  | [] => [[]]
  | c :: cs =>
      if c = sep then [] :: splitOnChar sep cs
      else
        match splitOnChar sep cs with
        | [] => [[c]]
        | t :: ts => (c :: t) :: ts

/-- JavaScript `file.name.split(".").pop()` (`split` always yields at least
one piece, so `pop` never sees an empty array here). -/
def fileExtOf (f : FileInfo) : String :=
  String.mk ((splitOnChar '.' f.name.toList).getLastD [])

/-- Storage path of step [5]:
`user.id/Date.now()-Math.random().toString(36).substring(7).ext`. -/
def fileNameOf (env : UploadEnv) (uid : String) (f : FileInfo) : String :=
  uid ++ "/" ++ toString env.now ++ "-" ++ env.rand ++ "." ++ fileExtOf f

/-- Row built in step [6] from the OCR triple.  `price_per_kg` mirrors
`ocrData?.price_per_ton ? ocrData.price_per_ton / 1000 : null`: the ternary
tests JS truthiness, so an extracted `0` lands in the `null` branch.
`raw_ocr_data` is `JSON.parse(JSON.stringify(ocrData))`, an identity at this
model's granularity (`undefined` fields and `null` fields are both `none`). -/
def recordOf (env : UploadEnv) (uid : String) (f : FileInfo) : ReceiptRecord :=
  { user_id := uid
    status := statusOf (ocrTriple env).1 (ocrTriple env).2.2
    image_url := env.publicUrl
    image_filename := f.name
    supplier_name := (ocrTriple env).1.bind (·.supplier_name)
    transaction_date := (ocrTriple env).1.bind (·.date)
    total_amount := (ocrTriple env).1.bind (·.total_amount)
    weight_kg := (ocrTriple env).1.bind (·.weight_net)
    price_per_kg :=
      match (ocrTriple env).1.bind (·.price_per_ton) with
      | some p => if p = 0 then none else some (p / 1000)
      | none => none
    raw_ocr_data := (ocrTriple env).1
    ocr_confidence_score := (ocrTriple env).2.2
    processed_at := if (ocrTriple env).1.isSome then some env.isoNow else none
    processing_duration_ms := env.duration
    error_message := (ocrTriple env).2.1 }

/-- Embeds `uploadReceipt` from `upload.ts`: auth check, structural
validation, AI OCR, storage upload, database insert with compensating delete
on failure, cache revalidation.  Returns the action result together with the
ordered trace of collaborator calls. -/
def uploadReceipt (env : UploadEnv) : ActionResult × List Event :=
  match env.user with
  | none => (.err "Unauthorized - Please login to upload receipts", [])
  | some uid =>
    match env.file with
    | none => (.err "No file provided", [])
    | some f =>
      match validateFile f with
      | some msg => (.err msg, [])
      | none =>
        match env.uploadError with
        | some ue =>
            (.err ("Failed to upload file: " ++ ue),
             [.aiCall f.type, .storageUpload (fileNameOf env uid f)])
        | none =>
          match env.dbError with
          | some de =>
              (.err ("Failed to create receipt record: " ++ de),
               [.aiCall f.type, .storageUpload (fileNameOf env uid f),
                .dbInsert (recordOf env uid f),
                .storageRemove [fileNameOf env uid f]])
          | none =>
              (.ok env.dbReceiptId (ocrTriple env).1,
               [.aiCall f.type, .storageUpload (fileNameOf env uid f),
                .dbInsert (recordOf env uid f),
                .revalidate "/receipts", .revalidate "/dashboard"])

/-! ## Sample inputs used by the witness theorems -/

/-- Extraction with two filled fields (supplier and price): confidence 33. -/
def sampleOcr : OCRExtractedData :=
  { supplier_name := some "A"
    date := none
    total_amount := none
    cane_type := none
    weight_net := none
    price_per_ton := some 2000 }

/-- A structurally valid upload file. -/
def sampleFile : FileInfo :=
  { name := "r.jpg", size := 100, type := "image/jpeg" }

/-- Environment for a fully successful run that reaches the insert. -/
def envInsert : UploadEnv :=
  { user := some "u1"
    file := some sampleFile
    ocrData := some sampleOcr
    ocrError := none
    now := 5
    rand := "abc"
    uploadError := none
    removeError := none
    publicUrl := "http://x"
    dbError := none
    dbReceiptId := "rid"
    isoNow := "t0"
    duration := 3 }

/-- Environment where the upload succeeds and the insert fails. -/
def envDbFail : UploadEnv := { envInsert with dbError := some "boom" }

/-- Two of six fields filled gives confidence 33. -/
theorem sampleConf : ocrConfidenceOf sampleOcr = 33 := by
  norm_num [ocrConfidenceOf, filledFields, jsRound, sampleOcr]

example :
    (uploadReceipt envInsert).2 =
      [.aiCall "image/jpeg", .storageUpload "u1/5-abc.jpg",
       .dbInsert (recordOf envInsert "u1" sampleFile),
       .revalidate "/receipts", .revalidate "/dashboard"] := rfl

example : (recordOf envInsert "u1" sampleFile).ocr_confidence_score = some 33 := by
  simp [recordOf, ocrTriple, envInsert, jsTruthyStr, sampleConf]

example : (recordOf envInsert "u1" sampleFile).status = .processing := by
  simp [recordOf, ocrTriple, envInsert, jsTruthyStr, sampleConf, statusOf, confTruthyGE50]

example : (recordOf envInsert "u1" sampleFile).price_per_kg = some 2 := by
  norm_num [recordOf, ocrTriple, envInsert, jsTruthyStr, sampleOcr]

/-! ## Extractor lemmas -/

/-- Diagnostic string a failing model contributes to `errors` (dummy `""` on
the success side, where nothing is pushed). -/
def diag (env : AIEnv) (m : String) : String :=
  match tryModel env m with
  | .error e => e
  | .ok _ => ""

theorem runModels_all_fail (env : AIEnv) :
    ∀ ms errors tried, (∀ m ∈ ms, ∃ e, tryModel env m = .error e) →
      runModels env ms errors tried =
        ((none, some ("All AI models failed for OCR extraction. Details: "
            ++ jsJoin " | " (errors ++ ms.map (diag env)))), tried ++ ms) := by
  intro ms
  induction ms with
  | nil => intro errors tried _; simp [runModels]
  | cons m rest ih =>
      intro errors tried hall
      obtain ⟨e, he⟩ := hall m (by simp)
      have hd : diag env m = e := by simp [diag, he]
      simp only [runModels, he]
      rw [ih (errors ++ [e]) (tried ++ [m]) (fun m' hm' => hall m' (by simp [hm']))]
      simp [hd]

theorem runModels_success (env : AIEnv) :
    ∀ ms errors tried k m d, ms[k]? = some m → tryModel env m = .ok d →
      (∀ i mi, i < k → ms[i]? = some mi → ∃ e, tryModel env mi = .error e) →
      runModels env ms errors tried = ((some d, none), tried ++ ms.take (k + 1)) := by
  intro ms
  induction ms with
  | nil => intro _ _ k _ _ hk; simp at hk
  | cons m0 rest ih =>
      intro errors tried k m d hk hok hbefore
      match k with
      | 0 =>
          rw [List.getElem?_cons_zero] at hk
          obtain rfl : m0 = m := by simpa using hk
          simp only [runModels, hok]
          simp
      | k + 1 =>
          rw [List.getElem?_cons_succ] at hk
          obtain ⟨e0, he0⟩ := hbefore 0 m0 (Nat.succ_pos k) (by simp)
          simp only [runModels, he0]
          rw [ih (errors ++ [e0]) (tried ++ [m0]) k m d hk hok
            (fun i mi hi hmi => hbefore (i + 1) mi (by omega) (by simpa using hmi))]
          simp

theorem runModels_trace (env : AIEnv) :
    ∀ ms errors tried, ∃ k, k ≤ ms.length ∧
      (runModels env ms errors tried).2 = tried ++ ms.take k := by
  intro ms
  induction ms with
  | nil => intro errors tried; exact ⟨0, by simp [runModels]⟩
  | cons m rest ih =>
      intro errors tried
      rcases h : tryModel env m with e | d
      · obtain ⟨k, hk, htr⟩ := ih (errors ++ [e]) (tried ++ [m])
        refine ⟨k + 1, by simpa using hk, ?_⟩
        simp only [runModels, h]
        simp [htr]
      · exact ⟨1, by simp, by simp only [runModels, h]; simp⟩

theorem runModels_exclusive (env : AIEnv) :
    ∀ ms errors tried,
      ((runModels env ms errors tried).1.1 = none ∧
        ∃ e, (runModels env ms errors tried).1.2 = some e) ∨
      (∃ d, (runModels env ms errors tried).1.1 = some d ∧
        (runModels env ms errors tried).1.2 = none) := by
  intro ms
  induction ms with
  | nil => intro errors tried; left; simp [runModels]
  | cons m rest ih =>
      intro errors tried
      rcases h : tryModel env m with e | d
      · simpa only [runModels, h] using ih (errors ++ [e]) (tried ++ [m])
      · right; exact ⟨d, by simp only [runModels, h], by simp only [runModels, h]⟩

/-! ## Extractor claims -/

/-- C3: for every image input, `analyzeReceipt` tries the fixed model list
strictly in order (the invoked models form a duplicate-free prefix of
`VISION_MODELS`), and as soon as one model's response passes sanitization
and parses, it returns immediately with that model's parsed data and a null
error, invoking no later model. -/
theorem analyzeReceipt_first_success_wins (env : AIEnv)
    (hc : env.configured = true) :
    (analyzeReceipt env).2 <+: VISION_MODELS ∧
    (analyzeReceipt env).2.Nodup ∧
    (∀ k m d, VISION_MODELS[k]? = some m → tryModel env m = .ok d →
      (∀ i mi, i < k → VISION_MODELS[i]? = some mi →
        ∃ e, tryModel env mi = .error e) →
      (analyzeReceipt env).1 = (some d, none) ∧
      (analyzeReceipt env).2 = VISION_MODELS.take (k + 1)) := by
  have hrw : analyzeReceipt env = runModels env VISION_MODELS [] [] := by
    simp [analyzeReceipt, hc]
  have hnd : VISION_MODELS.Nodup := by decide
  obtain ⟨k, hk, htr⟩ := runModels_trace env VISION_MODELS [] []
  refine ⟨?_, ?_, ?_⟩
  · rw [hrw, htr]
    simp only [List.nil_append]
    exact ⟨VISION_MODELS.drop k, List.take_append_drop k _⟩
  · rw [hrw, htr]
    simp only [List.nil_append]
    exact hnd.sublist (List.take_sublist k _)
  · intro k' m d hk' hok hbefore
    rw [hrw, runModels_success env VISION_MODELS [] [] k' m d hk' hok hbefore]
    simp

/-- Sample extractor environment in which the primary model succeeds. -/
def aiEnvOk : AIEnv :=
  { configured := true
    resp := fun _ => .replied (some "\x7b\x7d")
    parse := fun _ => .ok sampleOcr }

/-- Witness for C3 at `aiEnvOk`: the first model succeeds, so only it is
invoked and its data is returned with a null error. -/
theorem analyzeReceipt_first_success_wins_witness :
    (analyzeReceipt aiEnvOk).1 = (some sampleOcr, none) ∧
    (analyzeReceipt aiEnvOk).2 = VISION_MODELS.take 1 :=
  (analyzeReceipt_first_success_wins aiEnvOk rfl).2.2 0
    "google/gemini-2.0-flash-exp:free" sampleOcr rfl rfl
    (fun i _ hi _ => absurd hi (by omega))

/-- C6: when every model in the chain fails, `analyzeReceipt` returns a null
data field together with an error string that contains each model's
diagnostic fragment as an infix. -/
theorem analyzeReceipt_all_fail_error (env : AIEnv)
    (hc : env.configured = true)
    (hall : ∀ m ∈ VISION_MODELS, ∃ e, tryModel env m = .error e) :
    (analyzeReceipt env).1.1 = none ∧
    ∃ E, (analyzeReceipt env).1.2 = some E ∧
      ∀ m ∈ VISION_MODELS, ∀ e, tryModel env m = .error e →
        e.toList <:+: E.toList := by
  have hrw : analyzeReceipt env = runModels env VISION_MODELS [] [] := by
    simp [analyzeReceipt, hc]
  rw [hrw, runModels_all_fail env VISION_MODELS [] [] hall]
  refine ⟨rfl, _, rfl, ?_⟩
  intro m hm e he
  have hd : diag env m = e := by simp [diag, he]
  simp only [VISION_MODELS, List.mem_cons, List.mem_singleton] at hm
  rcases hm with rfl | rfl | rfl | hm
  · exact ⟨("All AI models failed for OCR extraction. Details: ").toList,
      (" | " ++ (diag env "qwen/qwen-2.5-vl-7b-instruct:free" ++ " | "
        ++ diag env "nvidia/nemotron-nano-12b-v2-vl:free")).toList,
      by simp [VISION_MODELS, jsJoin, hd, String.toList]⟩
  · exact ⟨("All AI models failed for OCR extraction. Details: "
        ++ diag env "google/gemini-2.0-flash-exp:free" ++ " | ").toList,
      (" | " ++ diag env "nvidia/nemotron-nano-12b-v2-vl:free").toList,
      by simp [VISION_MODELS, jsJoin, hd, String.toList]⟩
  · exact ⟨("All AI models failed for OCR extraction. Details: "
        ++ diag env "google/gemini-2.0-flash-exp:free" ++ " | "
        ++ diag env "qwen/qwen-2.5-vl-7b-instruct:free" ++ " | ").toList,
      ([] : List Char),
      by simp [VISION_MODELS, jsJoin, hd, String.toList]⟩
  · exact absurd hm (List.not_mem_nil m)

/-- Sample extractor environment in which every model call throws. -/
def aiEnvFail : AIEnv :=
  { configured := true
    resp := fun _ => .threw "boom"
    parse := fun _ => .error "x" }

/-- Witness for C6 at `aiEnvFail`: with all three models throwing, the data
field is null. -/
theorem analyzeReceipt_all_fail_error_witness :
    (analyzeReceipt aiEnvFail).1.1 = none :=
  (analyzeReceipt_all_fail_error aiEnvFail rfl
    (fun m _ => ⟨m ++ ": " ++ jsSubstring50 "boom", rfl⟩)).1

/-- C7: `analyzeReceipt` is a total function (the TS original converts every
failure, including a missing API key, into the error channel instead of
throwing), and its result always has exactly one of `data` and `error`
non-null. -/
theorem analyzeReceipt_exclusive (env : AIEnv) :
    ((analyzeReceipt env).1.1 = none ∧ ∃ e, (analyzeReceipt env).1.2 = some e) ∨
    (∃ d, (analyzeReceipt env).1.1 = some d ∧ (analyzeReceipt env).1.2 = none) := by
  by_cases hc : env.configured = true
  · simp only [analyzeReceipt, hc, if_true]
    exact runModels_exclusive env VISION_MODELS [] []
  · left
    simp [analyzeReceipt, hc]

/-! ## Orchestrator lemmas -/

/-- Any inserted row comes from the single `insert` site of step [6] and is
exactly `recordOf` for the authenticated user and the validated file. -/
theorem dbInsert_mem {env : UploadEnv} {r : ReceiptRecord}
    (h : Event.dbInsert r ∈ (uploadReceipt env).2) :
    ∃ uid f, env.user = some uid ∧ env.file = some f ∧
      validateFile f = none ∧ env.uploadError = none ∧ r = recordOf env uid f := by
  rcases hu : env.user with _ | uid
  · simp [uploadReceipt, hu] at h
  · rcases hf : env.file with _ | f
    · simp [uploadReceipt, hu, hf] at h
    · rcases hv : validateFile f with _ | msg
      · rcases hup : env.uploadError with _ | ue
        · rcases hdb : env.dbError with _ | de
          · simp only [uploadReceipt, hu, hf, hv, hup, hdb, List.mem_cons,
              List.not_mem_nil, or_false] at h
            rcases h with h | h | h | h | h <;> simp_all
          · simp only [uploadReceipt, hu, hf, hv, hup, hdb, List.mem_cons,
              List.not_mem_nil, or_false] at h
            rcases h with h | h | h | h <;> simp_all
        · simp [uploadReceipt, hu, hf, hv, hup] at h
      · simp [uploadReceipt, hu, hf, hv] at h

/-- The stored confidence is always the score of the stored data. -/
theorem ocrTriple_conf (env : UploadEnv) :
    (ocrTriple env).2.2 = (ocrTriple env).1.map ocrConfidenceOf := by
  unfold ocrTriple
  cases hb : jsTruthyStr env.ocrError
  · cases hd : env.ocrData <;> simp
  · simp

/-- A row with extracted data is completed or processing. -/
theorem statusOf_some (d : OCRExtractedData) (c : Option ℤ) :
    statusOf (some d) c = .completed ∨ statusOf (some d) c = .processing := by
  simp only [statusOf, Option.isSome_some, Bool.true_and]
  split
  · exact Or.inl rfl
  · simp

/-- A row without extracted data is pending. -/
theorem statusOf_none (c : Option ℤ) : statusOf none c = .pending := by
  simp [statusOf]

/-! ## Orchestrator claims -/

/-- C1: when the storage upload succeeds and the database insert fails, the
action deletes exactly the uploaded path (the single `storageRemove` call
carries the same path the `storageUpload` used), returns the persistence
error, and the outcome of the compensating delete itself cannot change the
returned value. -/
theorem uploadReceipt_compensation (env : UploadEnv) (u : String)
    (f : FileInfo) (e : String) (hu : env.user = some u)
    (hf : env.file = some f) (hv : validateFile f = none)
    (hup : env.uploadError = none) (hdb : env.dbError = some e) :
    (uploadReceipt env).1 = .err ("Failed to create receipt record: " ++ e) ∧
    (uploadReceipt env).2 =
      [.aiCall f.type, .storageUpload (fileNameOf env u f),
       .dbInsert (recordOf env u f), .storageRemove [fileNameOf env u f]] ∧
    ∀ re, uploadReceipt { env with removeError := re } = uploadReceipt env := by
  refine ⟨?_, ?_, fun re => rfl⟩ <;> simp [uploadReceipt, hu, hf, hv, hup, hdb]

/-- Witness for C1 at `envDbFail`: upload succeeded, insert failed with
`boom`, and the returned error is the persistence error. -/
theorem uploadReceipt_compensation_witness :
    (uploadReceipt envDbFail).1 =
      .err ("Failed to create receipt record: " ++ "boom") ∧
    (uploadReceipt envDbFail).2 =
      [.aiCall "image/jpeg", .storageUpload "u1/5-abc.jpg",
       .dbInsert (recordOf envDbFail "u1" sampleFile),
       .storageRemove ["u1/5-abc.jpg"]] := by
  have h := uploadReceipt_compensation envDbFail "u1" sampleFile "boom"
    rfl rfl rfl rfl rfl
  exact ⟨h.1, h.2.1⟩

/-- C2: every inserted row's status is `completed` when data is present with
confidence at least 50, `processing` when data is present with confidence
below 50 (including exactly 0, which is falsy in JS and so skips the
comparison), `pending` when data is absent, and never `failed`. -/
theorem uploadReceipt_status (env : UploadEnv) (r : ReceiptRecord)
    (h : Event.dbInsert r ∈ (uploadReceipt env).2) :
    (r.raw_ocr_data = none → r.status = .pending) ∧
    (∀ d c, r.raw_ocr_data = some d → r.ocr_confidence_score = some c →
      (50 ≤ c → r.status = .completed) ∧ (c < 50 → r.status = .processing)) ∧
    r.status ≠ .failed := by
  obtain ⟨uid, f, hu, hf, hv, hup, rfl⟩ := dbInsert_mem h
  refine ⟨fun hnone => ?_, fun d c hd hc => ?_, ?_⟩
  · simp only [recordOf] at hnone ⊢
    rw [hnone, statusOf_none]
  · simp only [recordOf] at hd hc ⊢
    rw [ocrTriple_conf, hd] at hc
    simp only [Option.map_some', Option.some_inj] at hc
    constructor
    · intro h50
      subst hc
      have hne : ¬ocrConfidenceOf d = 0 := by omega
      simp [statusOf, hd, ocrTriple_conf, confTruthyGE50, hne, h50]
    · intro h50
      have : confTruthyGE50 (some c) = false := by
        simp only [confTruthyGE50, Bool.and_eq_false_iff, decide_eq_false_iff_not]
        omega
      rw [hd, ocrTriple_conf, hd]
      simp [statusOf, hc, this]
  · simp only [recordOf]
    rcases hd : (ocrTriple env).1 with _ | d
    · rw [statusOf_none]; simp
    · rcases statusOf_some d (ocrTriple env).2.2 with hs | hs <;> rw [hs] <;> simp

/-- Witness for C2 at `envInsert`: two of six fields filled gives confidence
33, below 50, so the inserted row is `processing` and not `failed`. -/
theorem uploadReceipt_status_witness :
    (recordOf envInsert "u1" sampleFile).status = .processing ∧
    (recordOf envInsert "u1" sampleFile).status ≠ .failed := by
  have hmem : Event.dbInsert (recordOf envInsert "u1" sampleFile) ∈
      (uploadReceipt envInsert).2 := by
    have htr : (uploadReceipt envInsert).2 =
        [.aiCall "image/jpeg", .storageUpload "u1/5-abc.jpg",
         .dbInsert (recordOf envInsert "u1" sampleFile),
         .revalidate "/receipts", .revalidate "/dashboard"] := rfl
    rw [htr]; simp
  have h := uploadReceipt_status envInsert _ hmem
  have hconf : (recordOf envInsert "u1" sampleFile).ocr_confidence_score =
      some 33 := by
    simp [recordOf, ocrTriple, envInsert, jsTruthyStr, sampleConf]
  exact ⟨(h.2.1 sampleOcr 33 rfl hconf).2 (by norm_num), h.2.2⟩

/-- C4: every inserted row's confidence score is null exactly when its raw
data is null, and otherwise equals `round(100 * filled / 6)` where `filled`
counts the non-null entries among the six expected fields (zero filled
fields scores 0, not null); the spec's boundary values are 3/6 ↦ 50 and
2/6 ↦ 33. -/
theorem uploadReceipt_confidence (env : UploadEnv) (r : ReceiptRecord)
    (h : Event.dbInsert r ∈ (uploadReceipt env).2) :
    r.ocr_confidence_score =
      r.raw_ocr_data.map (fun d => jsRound (100 * (filledFields d : ℚ) / 6)) ∧
    jsRound (100 * (3 : ℚ) / 6) = 50 ∧
    jsRound (100 * (2 : ℚ) / 6) = 33 ∧
    jsRound (100 * (0 : ℚ) / 6) = 0 := by
  obtain ⟨uid, f, hu, hf, hv, hup, rfl⟩ := dbInsert_mem h
  refine ⟨?_, by norm_num [jsRound], by norm_num [jsRound], by norm_num [jsRound]⟩
  simp only [recordOf]
  rw [ocrTriple_conf]
  rcases hd : (ocrTriple env).1 with _ | d
  · simp
  · simp only [Option.map_some', Option.some_inj]
    unfold ocrConfidenceOf
    congr 1
    ring

/-- Witness for C4 at `envInsert`: the stored score is exactly the rounded
fraction of filled fields of the stored data. -/
theorem uploadReceipt_confidence_witness :
    (recordOf envInsert "u1" sampleFile).ocr_confidence_score =
      some (jsRound (100 * (filledFields sampleOcr : ℚ) / 6)) := by
  have hmem : Event.dbInsert (recordOf envInsert "u1" sampleFile) ∈
      (uploadReceipt envInsert).2 := by
    have htr : (uploadReceipt envInsert).2 =
        [.aiCall "image/jpeg", .storageUpload "u1/5-abc.jpg",
         .dbInsert (recordOf envInsert "u1" sampleFile),
         .revalidate "/receipts", .revalidate "/dashboard"] := rfl
    rw [htr]; simp
  have h := (uploadReceipt_confidence envInsert _ hmem).1
  rw [h]
  rfl

/-- C8: for an authenticated request whose file is missing, oversized
(strictly more than 5 MiB), or of a disallowed MIME type, the action returns
one of the three validation errors and its collaborator trace is empty — no
Object Store call, no Inference Service call, no insert. -/
theorem uploadReceipt_validation_first (env : UploadEnv) (u : String)
    (hu : env.user = some u)
    (hbad : env.file = none ∨ ∃ f, env.file = some f ∧
      (MAX_FILE_SIZE < f.size ∨ ¬ALLOWED_IMAGE_TYPES.contains f.type)) :
    (∃ msg, (uploadReceipt env).1 = .err msg ∧
      msg ∈ ["No file provided", "File size must be less than 5MB",
             "Only JPEG, PNG, and WebP images are allowed"]) ∧
    (uploadReceipt env).2 = [] := by
  rcases hbad with hf | ⟨f, hf, hviol⟩
  · refine ⟨⟨"No file provided", ?_, by simp⟩, ?_⟩ <;>
      simp [uploadReceipt, hu, hf]
  · by_cases hsz : MAX_FILE_SIZE < f.size
    · have hvf : validateFile f = some "File size must be less than 5MB" := by
        simp [validateFile, hsz]
      refine ⟨⟨"File size must be less than 5MB", ?_, by simp⟩, ?_⟩ <;>
        simp [uploadReceipt, hu, hf, hvf]
    · have hmime : ¬ALLOWED_IMAGE_TYPES.contains f.type := by
        rcases hviol with h | h
        · exact absurd h hsz
        · exact h
      have hvf : validateFile f =
          some "Only JPEG, PNG, and WebP images are allowed" := by
        unfold validateFile
        rw [if_neg hsz, if_neg hmime]
      refine ⟨⟨"Only JPEG, PNG, and WebP images are allowed", ?_, by simp⟩, ?_⟩ <;>
        simp [uploadReceipt, hu, hf, hvf]

/-- Environment whose file has a disallowed MIME type. -/
def envBadMime : UploadEnv :=
  { envInsert with file := some { name := "r.gif", size := 10, type := "image/gif" } }

/-- Witness for C8 at `envBadMime`: a GIF upload produces an empty
collaborator trace. -/
theorem uploadReceipt_validation_first_witness :
    (uploadReceipt envBadMime).2 = [] :=
  (uploadReceipt_validation_first envBadMime "u1" rfl
    (Or.inr ⟨_, rfl, Or.inr (by decide)⟩)).2

/-- C9: in every inserted row, `status = pending`, `raw_ocr_data = null`,
`ocr_confidence_score = null` and `processed_at = null` are equivalent, and
a non-null `error_message` forces that pending/all-null state (a row never
carries both extracted data and an extraction error message). -/
theorem uploadReceipt_null_invariant (env : UploadEnv) (r : ReceiptRecord)
    (h : Event.dbInsert r ∈ (uploadReceipt env).2) :
    (r.status = .pending ↔ r.raw_ocr_data = none) ∧
    (r.raw_ocr_data = none ↔ r.ocr_confidence_score = none) ∧
    (r.ocr_confidence_score = none ↔ r.processed_at = none) ∧
    (r.error_message ≠ none → r.status = .pending ∧ r.raw_ocr_data = none ∧
      r.ocr_confidence_score = none ∧ r.processed_at = none) := by
  obtain ⟨uid, f, hu, hf, hv, hup, rfl⟩ := dbInsert_mem h
  cases hb : jsTruthyStr env.ocrError
  · cases hd : env.ocrData with
    | none => simp [recordOf, ocrTriple, hb, hd, statusOf_none]
    | some d =>
        rcases statusOf_some d (some (ocrConfidenceOf d)) with hs | hs <;>
          simp [recordOf, ocrTriple, hb, hd, hs]
  · simp [recordOf, ocrTriple, hb, statusOf_none]

/-- Witness for C9 at `envInsert`: with data present, null confidence is
equivalent to null `processed_at` (both sides false here). -/
theorem uploadReceipt_null_invariant_witness :
    ((recordOf envInsert "u1" sampleFile).ocr_confidence_score = none ↔
      (recordOf envInsert "u1" sampleFile).processed_at = none) := by
  have hmem : Event.dbInsert (recordOf envInsert "u1" sampleFile) ∈
      (uploadReceipt envInsert).2 := by
    have htr : (uploadReceipt envInsert).2 =
        [.aiCall "image/jpeg", .storageUpload "u1/5-abc.jpg",
         .dbInsert (recordOf envInsert "u1" sampleFile),
         .revalidate "/receipts", .revalidate "/dashboard"] := rfl
    rw [htr]; simp
  exact (uploadReceipt_null_invariant envInsert _ hmem).2.2.1

/-- C10: in every inserted row with extracted data, `price_per_kg` is the
extracted `price_per_ton` divided by 1000 when that field is a non-null,
non-zero number, and null otherwise — in particular an extracted 0 (falsy in
JS) is persisted as null, not 0. -/
theorem uploadReceipt_price_conversion (env : UploadEnv) (r : ReceiptRecord)
    (d : OCRExtractedData) (h : Event.dbInsert r ∈ (uploadReceipt env).2)
    (hd : r.raw_ocr_data = some d) :
    (∀ p, d.price_per_ton = some p → p ≠ 0 → r.price_per_kg = some (p / 1000)) ∧
    (d.price_per_ton = some 0 → r.price_per_kg = none) ∧
    (d.price_per_ton = none → r.price_per_kg = none) := by
  obtain ⟨uid, f, hu, hf, hv, hup, rfl⟩ := dbInsert_mem h
  have hd' : (ocrTriple env).1 = some d := hd
  exact ⟨fun p hp hp0 => by simp [recordOf, hd', hp, hp0],
    fun hp => by simp [recordOf, hd', hp],
    fun hp => by simp [recordOf, hd', hp]⟩

/-- Witness for C10 at `envInsert`: an extracted price of 2000 per ton is
stored as 2 per kg. -/
theorem uploadReceipt_price_conversion_witness :
    (recordOf envInsert "u1" sampleFile).price_per_kg = some ((2000 : ℚ) / 1000) := by
  have hmem : Event.dbInsert (recordOf envInsert "u1" sampleFile) ∈
      (uploadReceipt envInsert).2 := by
    have htr : (uploadReceipt envInsert).2 =
        [.aiCall "image/jpeg", .storageUpload "u1/5-abc.jpg",
         .dbInsert (recordOf envInsert "u1" sampleFile),
         .revalidate "/receipts", .revalidate "/dashboard"] := rfl
    rw [htr]; simp
  exact (uploadReceipt_price_conversion envInsert _ sampleOcr hmem rfl).1
    2000 rfl (by norm_num)

/-! ## Sanitizer lemmas -/

theorem stripJsonLoop_sublist : ∀ fuel l, List.Sublist (stripJsonLoop fuel l) l := by
  intro fuel l
  induction fuel, l using stripJsonLoop.induct with
  | case1 l => exact List.Sublist.refl _
  | case2 fuel j s o n rest hif ih =>
      rw [stripJsonLoop, if_pos hif]
      exact ih.trans ((List.dropWhile_sublist _).trans
        (List.sublist_append_right ['`', '`', '`', j, s, o, n] rest))
  | case3 fuel j s o n rest hif ih =>
      rw [stripJsonLoop, if_neg hif]
      exact ih.cons₂ '`'
  | case4 fuel c cs h ih =>
      rw [stripJsonLoop]
      · exact ih.cons₂ c
      · exact h
  | case5 fuel => simp [stripJsonLoop]

theorem stripTicksLoop_sublist : ∀ fuel l, List.Sublist (stripTicksLoop fuel l) l := by
  intro fuel l
  induction fuel, l using stripTicksLoop.induct with
  | case1 l => exact List.Sublist.refl _
  | case2 fuel rest ih =>
      rw [stripTicksLoop]
      exact ih.trans ((List.dropWhile_sublist _).trans
        (List.sublist_append_right ['`', '`', '`'] rest))
  | case3 fuel c cs h ih =>
      rw [stripTicksLoop]
      · exact ih.cons₂ c
      · exact h
  | case4 fuel => simp [stripTicksLoop]

theorem mem_trimJS {c : Char} {l : List Char} (h : c ∈ trimJS l) : c ∈ l := by
  unfold trimJS at h
  rw [List.mem_reverse] at h
  have h2 := (List.dropWhile_sublist jsWhitespace).subset h
  rw [List.mem_reverse] at h2
  exact (List.dropWhile_sublist jsWhitespace).subset h2

/-- Stripping the code-fence markers and trimming never introduces a
character that was not in the raw input. -/
theorem mem_cleanedOf {c : Char} {s : String} (h : c ∈ cleanedOf s) :
    c ∈ s.toList := by
  unfold cleanedOf at h
  have h1 := mem_trimJS h
  have h2 := (stripTicksLoop_sublist _ _).subset h1
  exact (stripJsonLoop_sublist _ _).subset h2

theorem idxOf?_eq_none {c : Char} : ∀ l, idxOf? c l = none ↔ c ∉ l := by
  intro l
  induction l with
  | nil => simp [idxOf?]
  | cons x xs ih =>
      by_cases hx : x = c
      · simp [idxOf?, hx]
      · have hcx : ¬c = x := fun h => hx h.symm
        simp [idxOf?, hx, Option.map_eq_none', ih, hcx]

/-- When `indexOf` returns an index, the character sits there, nothing
before it matches, and every match is at or after it. -/
theorem idxOf?_some_spec {c : Char} :
    ∀ l i, idxOf? c l = some i →
      c ∉ l.take i ∧ l[i]? = some c ∧ ∀ k, l[k]? = some c → i ≤ k := by
  intro l
  induction l with
  | nil => intro i h; simp [idxOf?] at h
  | cons x xs ih =>
      intro i h
      by_cases hx : x = c
      · simp only [idxOf?, if_pos hx, Option.some_inj] at h
        subst h
        exact ⟨by simp, by simp [hx], fun k _ => Nat.zero_le k⟩
      · simp only [idxOf?, if_neg hx, Option.map_eq_some'] at h
        obtain ⟨i', hi', rfl⟩ := h
        obtain ⟨hmem, hget, hmin⟩ := ih i' hi'
        refine ⟨?_, by simpa using hget, ?_⟩
        · simp only [List.take_succ_cons, List.mem_cons]
          rintro (rfl | hc)
          · exact hx rfl
          · exact hmem hc
        · intro k hk
          match k with
          | 0 =>
              rw [List.getElem?_cons_zero, Option.some_inj] at hk
              exact absurd hk hx
          | k + 1 =>
              rw [List.getElem?_cons_succ] at hk
              have := hmin k hk
              omega

theorem lastIdxOf?_eq_none {c : Char} (l : List Char) :
    lastIdxOf? c l = none ↔ c ∉ l := by
  simp [lastIdxOf?, idxOf?_eq_none]

/-- When `lastIndexOf` returns an index, the character sits there and every
match is at or before it. -/
theorem lastIdxOf?_some_spec {c : Char} {l : List Char} {j : Nat}
    (h : lastIdxOf? c l = some j) :
    l[j]? = some c ∧ ∀ k, l[k]? = some c → k ≤ j := by
  simp only [lastIdxOf?, Option.map_eq_some'] at h
  obtain ⟨k0, hk0, rfl⟩ := h
  obtain ⟨_, hget, hmin⟩ := idxOf?_some_spec l.reverse k0 hk0
  have hk0len : k0 < l.length := by
    have := List.getElem?_eq_some.mp hget
    simpa using this.1
  have hrev : l.reverse[k0]? = l[l.length - 1 - k0]? :=
    List.getElem?_reverse (by simpa using hk0len)
  refine ⟨by rw [← hrev]; exact hget, ?_⟩
  intro k hk
  have hklen : k < l.length := by
    have := List.getElem?_eq_some.mp hk
    exact this.1
  have hrev2 : l.reverse[l.length - 1 - k]? = l[l.length - 1 - (l.length - 1 - k)]? :=
    List.getElem?_reverse (by omega)
  have harith : l.length - 1 - (l.length - 1 - k) = k := by omega
  rw [harith] at hrev2
  have := hmin (l.length - 1 - k) (by rw [hrev2]; exact hk)
  omega

theorem head?_take {α : Type} (l : List α) (n : Nat) (h : n ≠ 0) :
    (l.take n).head? = l.head? := by
  cases l <;> cases n <;> simp_all

/-- C5: `cleanJSON` fulfils the spec's sanitizer description — the worked
example with prose and a json fence yields exactly the braced payload; an
input without an opening or without a closing brace yields null, as does a
closing brace only before the opening one; every non-null result is the
inclusive slice of the stripped text from its first opening brace to its
last closing brace (nothing before the slice holds an opening brace,
nothing after it holds a closing brace); and null is only returned when no
opening brace precedes a closing brace in the stripped text. -/
theorem cleanJSON_spec :
    cleanJSON "Here you go:\n```json\n\x7b\"a\":1\x7d\n```" = some "\x7b\"a\":1\x7d" ∧
    (∀ s : String, '\x7b' ∉ s.toList ∨ '\x7d' ∉ s.toList → cleanJSON s = none) ∧
    cleanJSON "end\x7d start\x7b" = none ∧
    (∀ s mid, cleanJSON s = some mid →
      ∃ pre post, cleanedOf s = pre ++ mid.toList ++ post ∧
        '\x7b' ∉ pre ∧ '\x7d' ∉ post ∧
        mid.toList.head? = some '\x7b' ∧ mid.toList.getLast? = some '\x7d') ∧
    (∀ s, cleanJSON s = none → ∀ i j : Nat, i ≤ j →
      ¬((cleanedOf s)[i]? = some '\x7b' ∧ (cleanedOf s)[j]? = some '\x7d')) := by
  refine ⟨by decide, ?_, by decide, ?_, ?_⟩
  · intro s h
    by_cases hs : s = ""
    · simp [cleanJSON, hs]
    · rcases h with h | h
      · have h1 : idxOf? '\x7b' (cleanedOf s) = none :=
          (idxOf?_eq_none _).mpr (fun hc => h (mem_cleanedOf hc))
        rcases h2 : lastIdxOf? '\x7d' (cleanedOf s) with _ | j <;>
          simp [cleanJSON, hs, h1, h2]
      · have h2 : lastIdxOf? '\x7d' (cleanedOf s) = none :=
          (lastIdxOf?_eq_none _).mpr (fun hc => h (mem_cleanedOf hc))
        rcases h1 : idxOf? '\x7b' (cleanedOf s) with _ | i <;>
          simp [cleanJSON, hs, h1, h2]
  · intro s mid hsome
    by_cases hs : s = ""
    · simp [cleanJSON, hs] at hsome
    · rcases h1 : idxOf? '\x7b' (cleanedOf s) with _ | i
      · simp [cleanJSON, hs, h1] at hsome
      · rcases h2 : lastIdxOf? '\x7d' (cleanedOf s) with _ | j
        · simp [cleanJSON, hs, h1, h2] at hsome
        · simp only [cleanJSON, if_neg hs, h1, h2] at hsome
          by_cases hlt : j < i
          · rw [if_pos hlt] at hsome
            exact absurd hsome (by simp)
          · rw [if_neg hlt] at hsome
            have hij : i ≤ j := by omega
            obtain ⟨hpre, hi, _⟩ := idxOf?_some_spec (cleanedOf s) i h1
            obtain ⟨hj, hmax⟩ := lastIdxOf?_some_spec h2
            have hjlen : j < (cleanedOf s).length :=
              (List.getElem?_eq_some.mp hj).1
            obtain rfl : mid = String.mk (((cleanedOf s).drop i).take (j + 1 - i)) :=
              (Option.some_inj.mp hsome).symm
            have hmidL : (String.mk (((cleanedOf s).drop i).take (j + 1 - i))).toList =
                ((cleanedOf s).drop i).take (j + 1 - i) := rfl
            refine ⟨(cleanedOf s).take i, (cleanedOf s).drop (j + 1),
              ?_, hpre, ?_, ?_, ?_⟩
            · rw [hmidL]
              have hsplit2 : ((cleanedOf s).drop i).take (j + 1 - i) ++
                  ((cleanedOf s).drop i).drop (j + 1 - i) = (cleanedOf s).drop i :=
                List.take_append_drop _ _
              have hdd : ((cleanedOf s).drop i).drop (j + 1 - i) =
                  (cleanedOf s).drop (j + 1) := by
                rw [List.drop_drop]
                congr 1
                omega
              have h4 : ((cleanedOf s).drop i).take (j + 1 - i) ++
                  (cleanedOf s).drop (j + 1) = (cleanedOf s).drop i := by
                rw [← hdd]
                exact hsplit2
              rw [List.append_assoc, h4, List.take_append_drop]
            · intro hc
              rw [List.mem_iff_getElem?] at hc
              obtain ⟨m, hm⟩ := hc
              rw [List.getElem?_drop] at hm
              have := hmax _ hm
              omega
            · rw [hmidL, head?_take _ _ (by omega), List.head?_drop]
              exact hi
            · rw [hmidL, List.getLast?_eq_getElem?]
              have hlen : (((cleanedOf s).drop i).take (j + 1 - i)).length =
                  j + 1 - i := by
                rw [List.length_take, List.length_drop]
                omega
              rw [hlen]
              have hsub : j + 1 - i - 1 = j - i := by omega
              rw [hsub, List.getElem?_take, if_pos (by omega), List.getElem?_drop]
              have : i + (j - i) = j := by omega
              rw [this]
              exact hj
  · intro s hnone i j hij
    rintro ⟨hi, hj⟩
    by_cases hs : s = ""
    · rw [hs] at hi
      have : cleanedOf "" = [] := rfl
      rw [this] at hi
      simp at hi
    · rcases h1 : idxOf? '\x7b' (cleanedOf s) with _ | i0
      · have : '\x7b' ∉ cleanedOf s := (idxOf?_eq_none _).mp h1
        exact this (by rw [List.mem_iff_getElem?]; exact ⟨i, hi⟩)
      · rcases h2 : lastIdxOf? '\x7d' (cleanedOf s) with _ | j0
        · have : '\x7d' ∉ cleanedOf s := (lastIdxOf?_eq_none _).mp h2
          exact this (by rw [List.mem_iff_getElem?]; exact ⟨j, hj⟩)
        · simp only [cleanJSON, if_neg hs, h1, h2] at hnone
          by_cases hlt : j0 < i0
          · obtain ⟨_, _, hmin⟩ := idxOf?_some_spec (cleanedOf s) i0 h1
            obtain ⟨_, hmax⟩ := lastIdxOf?_some_spec h2
            have hii := hmin i hi
            have hjj := hmax j hj
            omega
          · rw [if_neg hlt] at hnone
            exact absurd hnone (by simp)

/-- Witness for C5 applied at a braceless concrete input. -/
theorem cleanJSON_spec_witness :
    ('\x7b' ∉ "abc".toList ∨ '\x7d' ∉ "abc".toList) ∧ cleanJSON "abc" = none :=
  ⟨Or.inl (by decide), cleanJSON_spec.2.1 "abc" (Or.inl (by decide))⟩

end Sugarcane
